import Mathlib

/-!
Verification development for the discord-akairo command dispatcher.

The definitions below are a shallow embedding of the JavaScript sources:

* `src/struct/commands/CommandHandler.js` (register, deregister, parseCommand,
  parseCommandWithOverwrittenPrefixes, runCooldowns and its expiry timer,
  runAllTypeInhibitors, runPostTypeInhibitors, runPermissionChecks,
  handleConditionalCommands, runCommand, addPrompt/removePrompt/hasPrompt);
* the `Argument` class (`collect` / `promptOne`) found in
  `src/struct/commands/arguments/Control.js`;
* the historical `Command#parse` flag-extraction variant (unnamed part 002).

Modelling conventions, used throughout:

* JavaScript strings are `List Char`; `toLowerCase` is the ASCII `Char.toLower`
  and `localeCompare` is the character-code lexicographic order (the repository
  only exercises ASCII aliases and markers).
* Dynamic suppliers (functions passed where a string is allowed) are outside
  the shallow embedding; values are modelled already resolved.  Asynchronous
  awaits resolve in program order (spec section 5: a single message's pipeline
  is strictly sequential).
* discord.js `Collection`s and `Map`s are association lists in insertion
  order; `Set`s are duplicate-free lists in insertion order; a plain object
  used as a map is also an association list and `Object.keys` is its key list.
* Module identifiers are assumed non-empty so JavaScript truthiness of a
  looked-up id coincides with presence of the entry.
-/

set_option autoImplicit false

namespace Akairo

/-- JavaScript strings, modelled as lists of characters. -/
abbrev Str := List Char

/-- The characters recognised by the `\s` class on the ASCII fragment
(space, tab, line feed, carriage return, vertical tab, form feed). -/
def isWsChar (c : Char) : Bool :=
  c == ' ' || c == '\t' || c == '\n' || c == '\r' || c == '\x0b' || c == '\x0c'

/-- JS `String.prototype.toLowerCase`, ASCII fragment. -/
def lowerStr (s : Str) : Str := s.map Char.toLower

/-- JS `String.prototype.trim`: strip leading and trailing whitespace. -/
def trimStr (s : Str) : Str :=
  ((s.dropWhile isWsChar).reverse.dropWhile isWsChar).reverse

/-- JS `String.prototype.startsWith` (arguments: the receiver, then the needle). -/
def jsStartsWith (s p : Str) : Bool := p.isPrefixOf s

/-- First index at which `n` occurs in the haystack, if any. -/
def idxAux (n : Str) : Str → Option Nat
  | [] => if n.isEmpty then some 0 else none
  | c :: t => if n.isPrefixOf (c :: t) then some 0 else (idxAux n t).map (· + 1)

/-- JS `String.prototype.indexOf`: index of the first occurrence, `-1` if none. -/
def jsIndexOf (h n : Str) : Int :=
  match idxAux n h with
  | some k => (k : Int)
  | none => -1

/-- JS `String.prototype.search(/\S/)`: index of the first non-whitespace
character, `-1` if none. -/
def jsSearchNonWs (s : Str) : Int :=
  match s.findIdx? (fun c => !isWsChar c) with
  | some k => (k : Int)
  | none => -1

/-- JS `String.prototype.slice(start)` with a single (possibly negative)
argument. -/
def jsSliceI (s : Str) (i : Int) : Str :=
  if i < 0 then s.drop (s.length - min s.length i.natAbs)
  else s.drop i.toNat

/-- JS `content.split(/\s{1,}|\n{1,}/)[0]`: the leading run of non-whitespace
characters (empty when the content starts with whitespace or is empty). -/
def firstTok (s : Str) : Str := s.takeWhile (fun c => !isWsChar c)

/-- JS `content.match(/\S+\s*/g) || []`: tokens are maximal non-whitespace runs
together with the whitespace run that follows each of them. -/
def splitPlain : Str → List Str
  | [] => []
  | c :: t =>
    if isWsChar c then
      splitPlain t
    else
      let zs := t.dropWhile (fun x => !isWsChar x)
      (c :: t.takeWhile (fun x => !isWsChar x) ++ zs.takeWhile isWsChar)
        :: splitPlain (zs.dropWhile isWsChar)
termination_by s => s.length
decreasing_by
  · simp
  · have h1 : (t.dropWhile (fun x => !isWsChar x)).length ≤ t.length :=
      (List.dropWhile_sublist _).length_le
    have h2 : ((t.dropWhile (fun x => !isWsChar x)).dropWhile isWsChar).length
        ≤ (t.dropWhile (fun x => !isWsChar x)).length :=
      (List.dropWhile_sublist _).length_le
    simp
    omega

/-! Section: Maps and sets

discord.js `Collection` (a `Map` subclass), plain objects used as maps, and
`Set`s, in insertion order. -/

/-- JS `Map.prototype.get`. -/
def aGet {α : Type} (l : List (Str × α)) (k : Str) : Option α :=
  match l with
  | [] => none
  | (k', v) :: t => if k' = k then some v else aGet t k

/-- JS `Map.prototype.has`. -/
def aHas {α : Type} (l : List (Str × α)) (k : Str) : Bool :=
  (aGet l k).isSome

/-- JS `Map.prototype.set`: replaces the value in place if the key exists,
otherwise appends the new entry. -/
def aSet {α : Type} (l : List (Str × α)) (k : Str) (v : α) : List (Str × α) :=
  match l with
  | [] => [(k, v)]
  | (k', v') :: t => if k' = k then (k', v) :: t else (k', v') :: aSet t k v

/-- JS `Map.prototype.delete`. -/
def aDel {α : Type} (l : List (Str × α)) (k : Str) : List (Str × α) :=
  match l with
  | [] => []
  | (k', v') :: t => if k' = k then t else (k', v') :: aDel t k

/-- JS `Set.prototype.add`: appends unless already present. -/
def sAdd (l : List Str) (x : Str) : List Str :=
  if l.contains x then l else l ++ [x]

/-- JS `Set.prototype.delete`. -/
def sDel (l : List Str) (x : Str) : List Str :=
  l.filter (fun y => y ≠ x)

/-- JS `Set.prototype.has`. -/
def sHas (l : List Str) (x : Str) : Bool :=
  l.contains x

@[simp] theorem aGet_nil {α : Type} (k : Str) : aGet ([] : List (Str × α)) k = none := rfl

theorem aSet_nil {α : Type} (k : Str) (v : α) : aSet [] k v = [(k, v)] := rfl

theorem aSet_cons {α : Type} (k' : Str) (v' : α) (t : List (Str × α)) (k : Str) (v : α) :
    aSet ((k', v') :: t) k v
      = if k' = k then (k', v) :: t else (k', v') :: aSet t k v := rfl

theorem aDel_cons {α : Type} (k' : Str) (v' : α) (t : List (Str × α)) (k : Str) :
    aDel ((k', v') :: t) k = if k' = k then t else (k', v') :: aDel t k := rfl

@[simp] theorem aGet_cons {α : Type} (k' : Str) (v : α) (t : List (Str × α)) (k : Str) :
    aGet ((k', v) :: t) k = if k' = k then some v else aGet t k := rfl

theorem aGet_aSet_self {α : Type} (l : List (Str × α)) (k : Str) (v : α) :
    aGet (aSet l k v) k = some v := by
  induction l with
  | nil => simp [aSet]
  | cons h t ih =>
    obtain ⟨k', v'⟩ := h
    by_cases hk : k' = k <;> simp [aSet, hk, ih]

theorem aGet_aSet_ne {α : Type} (l : List (Str × α)) (k k' : Str) (v : α) (h : k ≠ k') :
    aGet (aSet l k v) k' = aGet l k' := by
  induction l with
  | nil => simp [aSet, h]
  | cons hd t ih =>
    obtain ⟨k'', v''⟩ := hd
    by_cases hk : k'' = k <;> simp [aSet, hk, ih]
    · subst hk; simp [h]

@[simp] theorem aSet_aSet_self {α : Type} (l : List (Str × α)) (k : Str) (v v' : α) :
    aSet (aSet l k v) k v' = aSet l k v' := by
  induction l with
  | nil => simp [aSet]
  | cons hd t ih =>
    obtain ⟨k'', v''⟩ := hd
    by_cases hk : k'' = k <;> simp [aSet, hk, ih]

@[simp] theorem aSet_ne_nil {α : Type} (l : List (Str × α)) (k : Str) (v : α) :
    ¬ aSet l k v = [] := by
  cases l with
  | nil => simp [aSet]
  | cons hd t =>
    obtain ⟨k', v'⟩ := hd
    by_cases hk : k' = k <;> simp [aSet, hk]

theorem sDel_not_contains (l : List Str) (x : Str) : (sDel l x).contains x = false := by
  induction l with
  | nil => rfl
  | cons h t ih =>
    by_cases hx : h = x <;> simp_all [sDel, List.filter]
    exact fun hh => hx hh.symm

theorem not_mem_sDel (l : List Str) (x : Str) : x ∉ sDel l x := by
  intro hm
  rw [sDel, List.mem_filter] at hm
  simp at hm

/-! Section: Data model -/

/-- The restriction of a command to a channel type. -/
inductive ChanKind
  | guild
  | dm
  deriving DecidableEq

/-- Thrown faults (user-code exceptions), abstracted as a number. -/
abbrev Fault := Nat

/-- Values produced by argument casting and by command handlers, abstracted
as a number. -/
abbrev Val := Nat

/-- An inbound message event (the fields of the chat-transport message the
core reads). -/
structure Msg where
  authorId : Str
  channelId : Str := []
  content : Str := []
  edited : Bool := false
  authorBot : Bool := false
  inGuild : Bool := false
  createdTimestamp : Nat := 0

/-- A registered command (`Command` of the era matching this
`CommandHandler`; unnamed part 000).  Permission fields are kept only in
supplier form; the static permission arrays resolve through the chat
transport's permission lookup, which is an external collaborator. -/
structure Cmd where
  id : Str
  aliases : List Str := []
  /-- Field `command.prefix`; a single override string is the one-element list (the
  source's array and non-array branches perform the same per-string work). -/
  pfxOverride : Option (List Str) := none
  cooldown : Option Nat := none
  ratelimit : Nat := 1
  ignoreCooldown : Option (List Str) := none
  ownerOnly : Bool := false
  channel : Option ChanKind := none
  editable : Bool := true
  typing : Bool := false
  condition : Msg → Bool := fun _ => false
  before : Msg → Except Fault Unit := fun _ => .ok ()
  exec : Msg → Except Fault Val := fun _ => .ok 0
  clientPermissions : Option (Msg → Option Str) := none
  userPermissions : Option (Msg → Option Str) := none
  ignorePermissions : Option (List Str) := none

/-- One cooldown entry (`{ timer, end, uses }`); the pending timer is
modelled by the separate `fireCooldownTimer` transition. -/
structure CdEntry where
  endTime : Nat
  uses : Nat
  deriving DecidableEq

/-- The global prefix configuration (`prefix` option): a single string or an
array of strings.  A dynamic supplier is modelled by its resolved value. -/
inductive GPfx
  | one (s : Str)
  | many (l : List Str)

/-- The `CommandHandler` state. -/
structure CH where
  /-- Field `this.modules` (held by the superclass `AkairoHandler`). -/
  modules : List (Str × Cmd) := []
  /-- Field `this.aliases`: lowercased alias → command id. -/
  aliases : List (Str × Str) := []
  /-- Field `this.prefixes`: override prefix value → set of command ids. -/
  prefixes : List (Str × List Str) := []
  /-- Field `this.aliasReplacement`: the regex replacement `alias.replace(re, '')`
  embedded as the induced string function. -/
  aliasReplacement : Option (Str → Str) := none
  globalPfx : GPfx := .one ['!']
  allowMention : Bool := false
  clientUserId : Str := []
  blockClient : Bool := true
  blockBots : Bool := true
  defaultCooldown : Nat := 0
  ignoreCooldown : List Str := []
  /-- Field `this.cooldowns`: actor id → (command id → entry or `null`).  A key
  whose value is `none` is a key that exists and holds `null`. -/
  cooldowns : List (Str × List (Str × Option CdEntry)) := []
  /-- Field `this.prompts`: channel id → set of user ids. -/
  prompts : List (Str × List Str) := []
  /-- Whether `this.listenerCount(CommandHandlerEvents.ERROR)` is nonzero. -/
  hasErrorListener : Bool := true
  /-- Field `this.inhibitorHandler.test('all', message)`, resolved. -/
  inhibitAll : Msg → Option Str := fun _ => none
  /-- Field `this.inhibitorHandler.test('post', message, command)`, resolved,
  keyed by the command id. -/
  inhibitPost : Msg → Str → Option Str := fun _ _ => none
  /-- Field `this.client.isOwner(...)`: the identity provider's owner set
  (modelled from the spec's permission/identity provider interface). -/
  owners : List Str := []
  ignorePermissions : List Str := []

/-- The events the handler emits (spec section 6 observability surface). -/
inductive Ev
  | messageBlocked (reason : Str)
  | inPrompt
  | commandBlocked (cmdId reason : Str)
  | missingPermissions (cmdId kind : Str)
  | cooldown (cmdId : Str) (remaining : Int)
  | commandStarted (cmdId : Str)
  | commandFinished (cmdId : Str) (ret : Val)
  | commandCancelled (cmdId : Str)
  | errorEv (cmdId : Option Str)
  | messageInvalid
  deriving DecidableEq

/-! Section: Registry: register / deregister -/

/-- The `ALIAS_CONFLICT` fault raised by `register`. -/
inductive RegErr
  | aliasConflict (al cid oldId : Str)
  deriving DecidableEq

/-- Character-code lexicographic comparison (`localeCompare` on the ASCII
fragment). -/
def compareLex : Str → Str → Int
  | [], [] => 0
  | [], _ :: _ => -1
  | _ :: _, [] => 1
  | a :: s, b :: t =>
    if a.toNat < b.toNat then -1
    else if b.toNat < a.toNat then 1
    else compareLex s t

/-- Stable insertion into a sorted list: `x` goes after every `y` with
`le y x`. -/
def stableInsert {α : Type} (le : α → α → Bool) (x : α) : List α → List α
  | [] => [x]
  | y :: t => if le y x then y :: stableInsert le x t else x :: y :: t

/-- A stable sort; `Array.prototype.sort` is specified stable, and for the
consistent comparators used here any stable sort produces the same list. -/
def stableSortBy {α : Type} (le : α → α → Bool) (l : List α) : List α :=
  l.foldl (fun acc x => stableInsert le x acc) []

/-- The comparator sorting the overwrite-prefix index (`register`, lines
317-327): empty keys last, otherwise longest first with `localeCompare` on
ties.  Function keys are outside the embedding. -/
def pfxKeyCmp (a b : Str) : Int :=
  if a = [] ∧ b = [] then 0
  else if a = [] then 1
  else if b = [] then -1
  else if a.length = b.length then compareLex a b
  else (b.length : Int) - (a.length : Int)

/-- Field `this.prefixes.sort(...)`. -/
def sortPfxs (l : List (Str × List Str)) : List (Str × List Str) :=
  stableSortBy (fun x y => pfxKeyCmp x.1 y.1 ≤ 0) l

/-- The alias loop of `register` (lines 276-291): check for a conflict, store
the lowercased alias, then do the same for its replacement-derived secondary
alias.  A conflict stops the loop with the fault and the table as mutated so
far. -/
def registerAliasesLoop (repl : Option (Str → Str)) (cid : Str) :
    List Str → List (Str × Str) → Option RegErr × List (Str × Str)
  | [], tab => (none, tab)
  | a :: rest, tab =>
    match aGet tab (lowerStr a) with
    | some conflict => (some (.aliasConflict a cid conflict), tab)
    | none =>
      let al := lowerStr a
      let tab := aSet tab al cid
      match repl with
      | none => registerAliasesLoop repl cid rest tab
      | some f =>
        let r := f al
        if r = al then registerAliasesLoop repl cid rest tab
        else
          match aGet tab r with
          | some conflict => (some (.aliasConflict r cid conflict), tab)
          | none => registerAliasesLoop repl cid rest (aSet tab r cid)

/-- The overwrite-prefix insertion of `register` (lines 293-314): add the
command id to each declared prefix's id set, tracking whether a new prefix
key was introduced. -/
def addPfxOverrides (cid : Str) (ps : List Str) (pfxs : List (Str × List Str)) :
    List (Str × List Str) × Bool :=
  ps.foldl
    (fun acc p =>
      match aGet acc.1 p with
      | some ids => (aSet acc.1 p (sAdd ids cid), acc.2)
      | none => (aSet acc.1 p [cid], true))
    (pfxs, false)

/-- The result of `register`: the fault, if any, and the handler state as
left by the call (a thrown fault does not roll back prior mutations). -/
structure RegOut where
  err : Option RegErr
  st : CH

/-- Source `CommandHandler#register` (lines 273-330). -/
def register (st : CH) (c : Cmd) : RegOut :=
  -- Modelled from the spec: `super.register` — the module-source interface of
  -- spec section 6, whose class is not among the sources — stores the module
  -- in the modules map before the alias loop runs.
  let st0 : CH := { st with modules := aSet st.modules c.id c }
  match registerAliasesLoop st0.aliasReplacement c.id c.aliases st0.aliases with
  | (some e, tab) => { err := some e, st := { st0 with aliases := tab } }
  | (none, tab) =>
    let st1 : CH := { st0 with aliases := tab }
    match c.pfxOverride with
    | none => { err := none, st := st1 }
    | some ps =>
      let pr := addPfxOverrides c.id ps st1.prefixes
      let pfxs := if pr.2 then sortPfxs pr.1 else pr.1
      { err := none, st := { st1 with prefixes := pfxs } }

/-- Source `CommandHandler#deregister` (lines 337-369). -/
def deregister (st : CH) (c : Cmd) : CH :=
  let tab := c.aliases.foldl
    (fun tab a =>
      let al := lowerStr a
      let tab := aDel tab al
      match st.aliasReplacement with
      | none => tab
      | some f =>
        let r := f al
        if r = al then tab else aDel tab r)
    st.aliases
  let pfxs :=
    match c.pfxOverride with
    | none => st.prefixes
    | some ps =>
      ps.foldl
        (fun pfxs p =>
          match aGet pfxs p with
          | none => pfxs -- a registered command always has its entry
          | some ids =>
            if ids.length = 1 then aDel pfxs p
            -- mirrors `prefixes.delete(prefix)` (line 355/363): the prefix
            -- string itself, not `command.id`, is removed from the id set
            else aSet pfxs p (sDel ids p))
        st.prefixes
  { st with
    aliases := tab
    prefixes := pfxs
    modules := aDel st.modules c.id }

/-! Section: Prefix and alias resolution -/

/-- Source `CommandHandler#findCommand` (lines 964-966). -/
def findCommand (st : CH) (name : Str) : Option Cmd :=
  match aGet st.aliases (lowerStr name) with
  | none => none
  | some cid => aGet st.modules cid

/-- The object returned by command resolution (spec `ParseResult`); the
fallback object the source builds when no command is authorized carries no
`command` property, hence `command := none`. -/
structure ParseRes where
  command : Option Cmd
  pfx : Str
  aliasName : Str
  content : Str
  afterPfx : Str

/-- Intermediate values of the shared extraction block. -/
structure Extracted where
  name : Str
  command : Option Cmd
  content : Str
  afterPfx : Str

/-- The block shared by `parseCommand` (lines 821-826) and
`parseCommandWithOverwrittenPrefixes` (lines 890-895): find the alias token
after the matched prefix, look it up, and cut out the remaining content. -/
def extractParts (st : CH) (start : Str) (m : Msg) : Extracted :=
  let startIndex : Int := jsIndexOf (lowerStr m.content) start + (start.length : Int)
  let argsIndex : Int := jsSearchNonWs (jsSliceI m.content startIndex) + (start.length : Int)
  let name := firstTok (jsSliceI m.content argsIndex)
  let command := findCommand st name
  let content := trimStr (jsSliceI m.content (argsIndex + (name.length : Int) + 1))
  let afterPfx := trimStr (jsSliceI m.content ((start.length : Nat) : Int))
  { name := name, command := command, content := content, afterPfx := afterPfx }

/-- Source `CommandHandler#parseCommandWithOverwrittenPrefixes` (lines 841-902),
with string prefix keys (dynamic keys are outside the embedding): the first
index entry whose prefix starts the message wins, and its id set restricts
which command may resolve. -/
def parseCommandWithOverwrittenPrefixes (st : CH) (m : Msg) : Option ParseRes :=
  if st.prefixes.isEmpty then none
  else
    let lowC := lowerStr m.content
    match st.prefixes.find? (fun e => jsStartsWith lowC (lowerStr e.1)) with
    | none => none
    | some (start, cmds) =>
      let ex := extractParts st start m
      match ex.command with
      | some c =>
        if sHas cmds c.id then
          some { command := some c, pfx := start, aliasName := ex.name,
                 content := ex.content, afterPfx := ex.afterPfx }
        else
          some { command := none, pfx := start, aliasName := ex.name,
                 content := ex.content, afterPfx := ex.afterPfx }
      | none =>
        some { command := none, pfx := start, aliasName := ex.name,
               content := ex.content, afterPfx := ex.afterPfx }

/-- Mentions `<@id>` / `<@!id>`, the two canonical self-mention forms. -/
def mentionStr (id : Str) (bang : Bool) : Str :=
  '<' :: '@' :: ((if bang then ['!'] else []) ++ id ++ ['>'])

/-- Listify the global prefix configuration. -/
def gpfxList : GPfx → List Str
  | .one s => [s]
  | .many l => l

/-- The comparator of `parseCommand`'s candidate-prefix sort (lines 800-807).
The source tests `a === ''` twice where the second test was meant for `b`;
the dead branch is dropped and `b`'s emptiness is (as in the source) decided
by the length comparison. -/
def gpfxCmp (a b : Str) : Int :=
  if a = [] ∧ b = [] then 0
  else if a = [] then 1
  else if a.length = b.length then compareLex a b
  else (b.length : Int) - (a.length : Int)

/-- Source `CommandHandler#parseCommand` (lines 780-834).  The global prefix and the
mention predicate are modelled as resolved values. -/
def parseCommand (st : CH) (m : Msg) : Option ParseRes :=
  let pfx : GPfx :=
    if st.allowMention then
      .many (mentionStr st.clientUserId false :: mentionStr st.clientUserId true
             :: gpfxList st.globalPfx)
    else st.globalPfx
  let lowC := lowerStr m.content
  let start : Option Str :=
    match pfx with
    | .many l =>
      (stableSortBy (fun a b => gpfxCmp a b ≤ 0) l).find?
        (fun p => jsStartsWith lowC (lowerStr p))
    | .one p => if jsStartsWith lowC (lowerStr p) then some p else none
  match start with
  | none => parseCommandWithOverwrittenPrefixes st m
  | some s =>
    let ex := extractParts st s m
    let fallback : ParseRes :=
      { command := none, pfx := s, aliasName := ex.name,
        content := ex.content, afterPfx := ex.afterPfx }
    match ex.command with
    | none => (parseCommandWithOverwrittenPrefixes st m).orElse (fun _ => some fallback)
    | some c =>
      if c.pfxOverride.isSome then
        (parseCommandWithOverwrittenPrefixes st m).orElse (fun _ => some fallback)
      else
        some { command := some c, pfx := s, aliasName := ex.name,
               content := ex.content, afterPfx := ex.afterPfx }

/-! Section: Cooldown tracker -/

/-- Source `CommandHandler#runCooldowns` (lines 708-753).  Returns whether the
invocation is blocked, the new state, and the events emitted.  The
`setTimeout` registration is modelled by the separate `fireCooldownTimer`
transition below. -/
def runCooldowns (st : CH) (m : Msg) (c : Cmd) : Bool × CH × List Ev :=
  let ignorer := c.ignoreCooldown.getD st.ignoreCooldown
  let isIgnored := ignorer.contains m.authorId
  if isIgnored then (false, st, [])
  else
    let time := c.cooldown.getD st.defaultCooldown
    if time = 0 then (false, st, [])
    else
      let endTime := m.createdTimestamp + time
      let cd := st.cooldowns
      let cd := if aHas cd m.authorId then cd else aSet cd m.authorId []
      let inner := (aGet cd m.authorId).getD []
      let inner :=
        match aGet inner c.id with
        | some (some _) => inner
        | _ => aSet inner c.id (some { endTime := endTime, uses := 0 })
      let cd := aSet cd m.authorId inner
      match aGet inner c.id with
      | some (some entry) =>
        if c.ratelimit ≤ entry.uses then
          let diff : Int := (entry.endTime : Int) - (m.createdTimestamp : Int)
          (true, { st with cooldowns := cd }, [.cooldown c.id diff])
        else
          let inner := aSet inner c.id (some { entry with uses := entry.uses + 1 })
          (false, { st with cooldowns := aSet cd m.authorId inner }, [])
      | _ => (false, { st with cooldowns := cd }, [])

/-- The expiry-timer callback registered by `runCooldowns` (lines 728-735):
clear the timer, null out the entry, and drop the actor's map entry when the
actor's object has no keys left (`Object.keys` sees nulled keys, so the
value is set to `none` while the key stays). -/
def fireCooldownTimer (st : CH) (actorId cmdId : Str) : CH :=
  match aGet st.cooldowns actorId with
  | none => st -- the callback only runs while the entry it clears exists
  | some inner =>
    let inner := aSet inner cmdId none
    let cd := aSet st.cooldowns actorId inner
    let cd := if inner.isEmpty then aDel cd actorId else cd
    { st with cooldowns := cd }

/-! Section: Prompt bookkeeping and the `all`-type gate -/

/-- Source `CommandHandler#addPrompt` (lines 927-932). -/
def addPrompt (st : CH) (channelId userId : Str) : CH :=
  let users := (aGet st.prompts channelId).getD []
  { st with prompts := aSet st.prompts channelId (sAdd users userId) }

/-- Source `CommandHandler#removePrompt` (lines 940-945).  The source deletes the
outer key by `user.id` (not `channel.id`) when the set empties; the slip is
mirrored. -/
def removePrompt (st : CH) (channelId userId : Str) : CH :=
  match aGet st.prompts channelId with
  | none => st
  | some users =>
    let users := sDel users userId
    let m := aSet st.prompts channelId users
    { st with prompts := if users.isEmpty then aDel m userId else m }

/-- Source `CommandHandler#hasPrompt` (lines 953-957). -/
def hasPrompt (st : CH) (channelId userId : Str) : Bool :=
  match aGet st.prompts channelId with
  | none => false
  | some users => sHas users userId

/-- Source `CommandHandler#runAllTypeInhibitors` (lines 563-581): true means the
message is blocked.  The built-in order is inhibitor reason, self, bot,
ongoing prompt. -/
def runAllTypeInhibitors (st : CH) (m : Msg) : Bool × List Ev :=
  match st.inhibitAll m with
  | some reason => (true, [.messageBlocked reason])
  | none =>
    if st.blockClient && m.authorId = st.clientUserId then
      (true, [.messageBlocked ('c' :: 'l' :: 'i' :: 'e' :: 'n' :: 't' :: [])])
    else if st.blockBots && m.authorBot then
      (true, [.messageBlocked ('b' :: 'o' :: 't' :: [])])
    else if hasPrompt st m.channelId m.authorId then
      (true, [.inPrompt])
    else
      (false, [])

/-! Section: Post-type gates and conditional fan-out -/

/-- Source `CommandHandler#runPermissionChecks` (lines 653-700), supplier-form
permissions (static permission arrays resolve through the external
permission provider). -/
def runPermissionChecks (st : CH) (m : Msg) (c : Cmd) : Bool × List Ev :=
  match c.clientPermissions with
  | some f =>
    match f m with
    | some _ => (true, [.missingPermissions c.id ('c' :: 'l' :: 'i' :: 'e' :: 'n' :: 't' :: [])])
    | none => runUserPermissionCheck st m c
  | none => runUserPermissionCheck st m c
where
  /-- The `userPermissions` half of the check. -/
  runUserPermissionCheck (st : CH) (m : Msg) (c : Cmd) : Bool × List Ev :=
    match c.userPermissions with
    | some f =>
      let ignorer := c.ignorePermissions.getD st.ignorePermissions
      if ignorer.contains m.authorId then (false, [])
      else
        match f m with
        | some _ => (true, [.missingPermissions c.id ('u' :: 's' :: 'e' :: 'r' :: [])])
        | none => (false, [])
    | none => (false, [])

/-- Source `CommandHandler#runPostTypeInhibitors` (lines 608-645): owner-only,
channel restriction, permissions, custom post inhibitors, then cooldowns. -/
def runPostTypeInhibitors (st : CH) (m : Msg) (c : Cmd) : Bool × CH × List Ev :=
  if c.ownerOnly && !(st.owners.contains m.authorId) then
    (true, st, [.commandBlocked c.id ('o' :: 'w' :: 'n' :: 'e' :: 'r' :: [])])
  else if c.channel = some .guild && !m.inGuild then
    (true, st, [.commandBlocked c.id ('g' :: 'u' :: 'i' :: 'l' :: 'd' :: [])])
  else if c.channel = some .dm && m.inGuild then
    (true, st, [.commandBlocked c.id ('d' :: 'm' :: [])])
  else
    match runPermissionChecks st m c with
    | (true, evs) => (true, st, evs)
    | (false, _) =>
      match st.inhibitPost m c.id with
      | some reason => (true, st, [.commandBlocked c.id reason])
      | none => runCooldowns st m c

/-- Source `CommandHandler#runCommand` (lines 762-773): emit `commandStarted`,
execute, and emit `commandFinished` only if execution did not throw; a
thrown fault escapes to the caller. -/
def runCommandModel (m : Msg) (c : Cmd) : List Ev × Option Fault :=
  match c.exec m with
  | .ok ret => ([.commandStarted c.id, .commandFinished c.id ret], none)
  | .error f => ([.commandStarted c.id], some f)

/-- Source `CommandHandler#emitError` (lines 911-919): emit the error event when a
listener is attached, otherwise rethrow (a rethrow rejects the surrounding
task and is outside the modelled event trace). -/
def emitErrorEvs (st : CH) (cmdId : Option Str) : List Ev :=
  if st.hasErrorListener then [.errorEv cmdId] else []

/-- One entry of the conditional fan-out (the async closure of
`handleConditionalCommands`, lines 542-551): post gates, `before` hook, and
`runCommand`, with the command's own try/catch routing faults to
`emitError`. -/
def runOneConditional (st : CH) (m : Msg) (c : Cmd) : CH × List Ev :=
  match runPostTypeInhibitors st m c with
  | (true, st', evs) => (st', evs)
  | (false, st', evs) =>
    match c.before m with
    | .error _ => (st', evs ++ emitErrorEvs st (some c.id))
    | .ok _ =>
      match runCommandModel m c with
      | (evs', none) => (st', evs ++ evs')
      | (evs', some _) => (st', evs ++ evs' ++ emitErrorEvs st (some c.id))

/-- Source `CommandHandler#handleConditionalCommands` (lines 530-556).  The matched
commands' tasks are joined by `Promise.all`; their event traces are
concatenated in registration order (spec section 5: the tasks touch
independent keys and each failure is confined to its own try/catch). -/
def handleConditionalCommands (st : CH) (m : Msg) : Bool × CH × List Ev :=
  let trueCommands := st.modules.filter
    (fun e => (if m.edited then e.2.editable else true) && e.2.condition m)
  if trueCommands.isEmpty then (false, st, [])
  else
    let out := trueCommands.foldl
      (fun acc e =>
        let r := runOneConditional acc.1 m e.2
        (r.1, acc.2 ++ r.2))
      (st, [])
    (true, out.1, out.2)

/-! Section: The interactive prompt state machine

`Argument#collect` and its inner `promptOne`, from the `Argument` class kept
in `arguments/Control.js` (lines 504-660 of that file). -/

/-- The effective prompt options: the `Object.assign` merge of the handler,
command, and argument levels, modelled as the resulting record.  The message
templates are modelled by their truthiness, which decides whether a prompt
message is sent. -/
structure POpts where
  retries : Nat := 1
  time : Nat := 30000
  cancelWord : Str := 'c' :: 'a' :: 'n' :: 'c' :: 'e' :: 'l' :: []
  stopWord : Str := 's' :: 't' :: 'o' :: 'p' :: []
  infinite : Bool := false
  /-- JS `limit`; `none` is `Infinity`. -/
  limit : Option Nat := none
  breakout : Bool := true
  startText : Bool := false
  retryText : Bool := false
  timeoutText : Bool := false
  endedText : Bool := false
  cancelText : Bool := false

/-- The context a prompt runs in: the merged options, the argument's type
cast (`this.cast`, an external resolver from the prompt's point of view),
whether the argument's match kind is `separate`, and the breakout probe
(`this.handler.parseCommand(input)` yielding a command). -/
structure PromptCtx where
  opts : POpts
  castFn : Str → Option Val
  matchIsSeparate : Bool := false
  resolvesAsCommand : Str → Bool := fun _ => false

/-- The prompt messages sent to the actor. -/
inductive PEv
  | pstart
  | pretry
  | ptimeout
  | pended
  | pcancel
  deriving DecidableEq

/-- The value `promptOne` resolves to: an `InternalFlag.cancel()`, an
`InternalFlag.retry(message)` carrying the breakout input, a scalar value,
or the collected values of an infinite prompt. -/
inductive PromptOut
  | cancelled
  | retryBreakout (input : Str)
  | value (v : Val)
  | values (vs : List Val)
  deriving DecidableEq

/-- The messages sent on entry to one `promptOne` iteration (lines 559-584):
on the first try the `start` text unless suppressed for an infinite prompt
that already collected values, afterwards the `retry` text. -/
def promptSendEvs (ctx : PromptCtx) (isInf : Bool) (vals : List Val) (rc : Nat) : List PEv :=
  let shouldSend := if rc = 1 then (!isInf || vals.isEmpty) else true
  if shouldSend then
    if rc = 1 then (if ctx.opts.startText then [.pstart] else [])
    else (if ctx.opts.retryText then [.pretry] else [])
  else []

/-- JS `promptOne` (lines 558-653).  The actor's successive prompt replies are
the `script`; awaiting a message consumes the head, and an empty script is
the collector timeout.  Returns the messages sent, the resolved value, and
the unconsumed replies. -/
def promptOne (ctx : PromptCtx) (isInf : Bool) :
    List Str → List Val → Nat → List PEv × PromptOut × List Str
  | [], vals, rc =>
    (promptSendEvs ctx isInf vals rc ++ (if ctx.opts.timeoutText then [.ptimeout] else []),
     .cancelled, [])
  | inp :: rest, vals, rc =>
    let sendEvs := promptSendEvs ctx isInf vals rc
    if ctx.opts.breakout && ctx.resolvesAsCommand inp then
        (sendEvs, .retryBreakout inp, rest)
      else if lowerStr inp = lowerStr ctx.opts.cancelWord then
        (sendEvs ++ (if ctx.opts.cancelText then [.pcancel] else []), .cancelled, rest)
      else if isInf && lowerStr inp = lowerStr ctx.opts.stopWord then
        if vals.isEmpty then
          let r := promptOne ctx isInf rest vals (rc + 1)
          (sendEvs ++ r.1, r.2.1, r.2.2)
        else (sendEvs, .values vals, rest)
      else
        match ctx.castFn inp with
        | none =>
          if rc ≤ ctx.opts.retries then
            let r := promptOne ctx isInf rest vals (rc + 1)
            (sendEvs ++ r.1, r.2.1, r.2.2)
          else
            (sendEvs ++ (if ctx.opts.endedText then [.pended] else []), .cancelled, rest)
        | some v =>
          if isInf then
            let vals := vals ++ [v]
            if (match ctx.opts.limit with | none => true | some n => vals.length < n) then
              let r := promptOne ctx isInf rest vals 1
              (sendEvs ++ r.1, r.2.1, r.2.2)
            else (sendEvs, .values vals, rest)
          else (sendEvs, .value v, rest)

/-- The result of `Argument#collect`. -/
structure CollectOut where
  st : CH
  evs : List PEv
  out : PromptOut
  leftover : List Str

/-- JS `Argument#collect` (lines 504-660): compute the infinite flag and the
extra retry granted by a failed command-supplied phrase, register the prompt
session, run `promptOne`, and remove the session. -/
def collect (st : CH) (ctx : PromptCtx) (channelId userId : Str)
    (script : List Str) (commandInput : Str) : CollectOut :=
  let isInf := ctx.opts.infinite &&
    (if ctx.matchIsSeparate then commandInput.isEmpty else true)
  let additionalRetry : Nat := if commandInput.isEmpty then 0 else 1
  let st1 := addPrompt st channelId userId
  let r := promptOne ctx isInf script [] (1 + additionalRetry)
  let st2 := removePrompt st1 channelId userId
  { st := st2, evs := r.1, out := r.2.1, leftover := r.2.2 }

/-- The value `Command#parse` hands back to `handleDirectCommand`. -/
inductive ParsedArgs
  | bag
  | cancelFlag
  | retryFlag
  deriving DecidableEq

/-- Modelled from the spec: the argument-parser driver (`ArgumentParser`, not
among the sources) propagates a prompt resolution into `Command#parse`'s
result — a cancelled prompt yields the command-cancel flag, a breakout yields
the retry flag, and a value completes the argument bag (spec sections 4.5
step 9 and 4.6 step 6). -/
def liftPromptOut : PromptOut → ParsedArgs
  | .cancelled => .cancelFlag
  | .retryBreakout _ => .retryFlag
  | .value _ => .bag
  | .values _ => .bag

/-- The post-parse part of `CommandHandler#handleDirectCommand` (lines
445-453): a cancel flag emits `commandCancelled` and stops with `false`; a
retry flag re-enters `handle` (returned as `none` here); otherwise the
command runs. -/
def handleDirectAfterParse (st : CH) (m : Msg) (c : Cmd) (args : ParsedArgs) :
    List Ev × Option Bool :=
  match args with
  | .cancelFlag => ([.commandCancelled c.id], some false)
  | .retryFlag => ([], none)
  | .bag =>
    match runCommandModel m c with
    | (evs, none) => (evs, some true)
    | (evs, some _) => (evs ++ emitErrorEvs st (some c.id), some true)

/-! Section: Flag extraction of the historical `Command#parse` (unnamed part 002,
lines 377-400) -/

/-- The backward scan of `ArgumentMatches.FLAG`: some token, trimmed and
lowercased, equals one of the markers lowercased.  `arg.prefix` is the
marker list (a single marker is the one-element list; the array and
non-array branches test the same equality). -/
def flagFoundIn (words markers : List Str) : Bool :=
  words.reverse.any (fun w => markers.any (fun p => lowerStr (trimStr w) = lowerStr p))

/-- The evaluated flag argument: `arg.default == null ? flagFound :
!flagFound`. -/
def flagArgValue (words markers : List Str) (dflt : Option Val) : Bool :=
  match dflt with
  | none => flagFoundIn words markers
  | some _ => !flagFoundIn words markers

/-! Section: String lemmas -/

theorem lowerStr_append (a b : Str) : lowerStr (a ++ b) = lowerStr a ++ lowerStr b :=
  List.map_append _ a b

theorem isPrefixOf_self_append (p t : Str) : p.isPrefixOf (p ++ t) = true := by
  induction p with
  | nil => simp [List.isPrefixOf]
  | cons c p ih => simp [List.isPrefixOf, ih]

theorem jsStartsWith_append (p t : Str) : jsStartsWith (p ++ t) p = true :=
  isPrefixOf_self_append p t

theorem idxAux_zero (n h : Str) (hp : n.isPrefixOf h = true) : idxAux n h = some 0 := by
  cases h with
  | nil =>
    cases n with
    | nil => rfl
    | cons c t => simp [List.isPrefixOf] at hp
  | cons c t => simp [idxAux, hp]

theorem jsIndexOf_zero (h n : Str) (hp : jsStartsWith h n = true) : jsIndexOf h n = 0 := by
  unfold jsStartsWith at hp
  simp [jsIndexOf, idxAux_zero n h hp]

theorem jsSliceI_natCast (s : Str) (n : Nat) : jsSliceI s (n : Int) = s.drop n := by
  simp [jsSliceI]

theorem jsSearchNonWs_cons (c : Char) (t : Str) (hc : isWsChar c = false) :
    jsSearchNonWs (c :: t) = 0 := by
  simp [jsSearchNonWs, List.findIdx?_cons, hc]

theorem firstTok_append (a rest : Str) (ha : ∀ x ∈ a, isWsChar x = false)
    (hrest : rest = [] ∨ ∃ ch t, rest = ch :: t ∧ isWsChar ch = true) :
    firstTok (a ++ rest) = a := by
  induction a with
  | nil =>
    rcases hrest with h | ⟨ch, t, hr, hw⟩
    · simp [h, firstTok]
    · simp [hr, firstTok, List.takeWhile_cons, hw]
  | cons c a ih =>
    have hc := ha c (by simp)
    have := ih (fun x hx => ha x (by simp [hx]))
    simpa [firstTok, List.takeWhile_cons, hc] using this

/-! Section: Resolution lemmas -/

theorem extractParts_command (st : CH) (p : Str) (m : Msg) :
    (extractParts st p m).command = findCommand st (extractParts st p m).name := rfl

/-- When the message is the matched prefix followed directly by a
whitespace-free token and a whitespace-led (or empty) remainder, the
extraction block isolates exactly that token. -/
theorem extractParts_name (st : CH) (p a rest : Str) (m : Msg)
    (hp : lowerStr p = p)
    (hm : m.content = p ++ a ++ rest)
    (ha1 : a ≠ []) (ha2 : ∀ x ∈ a, isWsChar x = false)
    (hrest : rest = [] ∨ ∃ ch t, rest = ch :: t ∧ isWsChar ch = true) :
    (extractParts st p m).name = a := by
  have hlow : lowerStr m.content = p ++ lowerStr (a ++ rest) := by
    rw [hm, List.append_assoc, lowerStr_append, hp]
  have hidx : jsIndexOf (lowerStr m.content) p = 0 := by
    apply jsIndexOf_zero
    rw [hlow]
    exact jsStartsWith_append p _
  have h1 : jsIndexOf (lowerStr m.content) p + (p.length : Int) = (p.length : Int) := by
    rw [hidx]
    exact zero_add _
  have hdrop : jsSliceI m.content (p.length : Int) = a ++ rest := by
    rw [jsSliceI_natCast, hm, List.append_assoc, List.drop_left]
  have hcons : ∃ ch a', a = ch :: a' := by
    cases a with
    | nil => exact absurd rfl ha1
    | cons ch a' => exact ⟨ch, a', rfl⟩
  obtain ⟨ch, a', ha⟩ := hcons
  have hsearch : jsSearchNonWs (a ++ rest) = 0 := by
    rw [ha]
    exact jsSearchNonWs_cons ch _ (ha2 ch (by simp [ha]))
  have h2 : jsSearchNonWs (jsSliceI m.content
        (jsIndexOf (lowerStr m.content) p + (p.length : Int))) + (p.length : Int)
      = (p.length : Int) := by
    rw [h1, hdrop, hsearch, zero_add]
  simp only [extractParts, h2, hdrop]
  exact firstTok_append a rest ha2 hrest

theorem findCommand_singleton (st : CH) (x cid : Str) (c : Cmd)
    (hal : st.aliases = [(x, cid)]) (hmod : st.modules = [(cid, c)]) (n : Str) :
    findCommand st n = if x = lowerStr n then some c else none := by
  simp only [findCommand, hal, hmod, aGet_cons, aGet_nil]
  by_cases h : x = lowerStr n <;> simp [h]

theorem parseOverwritten_resolves (st : CH) (o a rest : Str) (S : List Str)
    (cid : Str) (c : Cmd) (m : Msg)
    (hpfx : st.prefixes = [(o, S)])
    (hal : st.aliases = [(lowerStr a, cid)])
    (hmod : st.modules = [(cid, c)])
    (hcid : c.id = cid)
    (hS : sHas S cid = true)
    (ho : lowerStr o = o)
    (hm : m.content = o ++ a ++ rest)
    (ha1 : a ≠ []) (ha2 : ∀ x ∈ a, isWsChar x = false)
    (hrest : rest = [] ∨ ∃ ch t, rest = ch :: t ∧ isWsChar ch = true) :
    parseCommandWithOverwrittenPrefixes st m =
      some { command := some c, pfx := o, aliasName := a,
             content := (extractParts st o m).content,
             afterPfx := (extractParts st o m).afterPfx } := by
  have hsw : jsStartsWith (lowerStr m.content) (lowerStr o) = true := by
    rw [ho, hm, List.append_assoc, lowerStr_append, ho]
    exact jsStartsWith_append o _
  have hname := extractParts_name st o a rest m ho hm ha1 ha2 hrest
  have hcmd : (extractParts st o m).command = some c := by
    rw [extractParts_command, hname, findCommand_singleton st _ cid c hal hmod]
    simp
  have hSmem : cid ∈ S := by simpa [sHas] using hS
  simp only [parseCommandWithOverwrittenPrefixes, hpfx]
  simp [List.find?, hsw, hcmd, hname, hcid, sHas, hSmem]

theorem parseOverwritten_no_match (st : CH) (o : Str) (S : List Str) (m : Msg)
    (hpfx : st.prefixes = [(o, S)])
    (ho : lowerStr o = o)
    (hsw : jsStartsWith (lowerStr m.content) o = false) :
    parseCommandWithOverwrittenPrefixes st m = none := by
  simp only [parseCommandWithOverwrittenPrefixes, hpfx]
  simp [List.find?, ho, hsw]

/-- When the single global prefix matches the message but the alias found
under it names no override-free command, `parseCommand` defers to the
overwrite index and otherwise falls back to the command-less result. -/
theorem parseCommand_one_match (st : CH) (g : Str) (m : Msg)
    (hglobal : st.globalPfx = .one g) (hmention : st.allowMention = false)
    (hg : lowerStr g = g)
    (hsw : jsStartsWith (lowerStr m.content) g = true)
    (hfall : ∀ c', (extractParts st g m).command = some c' →
      c'.pfxOverride.isSome = true) :
    parseCommand st m = (parseCommandWithOverwrittenPrefixes st m).orElse
      (fun _ => some { command := none, pfx := g,
                       aliasName := (extractParts st g m).name,
                       content := (extractParts st g m).content,
                       afterPfx := (extractParts st g m).afterPfx }) := by
  simp only [parseCommand, hmention, hglobal, Bool.false_eq_true, if_false, hg, hsw, if_true]
  cases hfc : (extractParts st g m).command with
  | none => simp
  | some c' =>
    have := hfall c' hfc
    simp [this]

/-- C1: with a registry holding one command `c` (alias `a`, override prefix
`o`, id `cid`) and global prefix `g`, a message `o ++ a ++ rest1` resolves
`c` through the overwrite index even though `g` also textually starts the
message, while the message `g ++ a ++ rest2`, which no override prefix
starts, resolves to a result carrying no command. -/
theorem cl1_prefix_override_specificity
    (st : CH) (g o a rest1 rest2 : Str) (ov : List Str) (cid : Str) (c : Cmd)
    (m1 m2 : Msg)
    (hglobal : st.globalPfx = .one g) (hmention : st.allowMention = false)
    (hpfx : st.prefixes = [(o, [cid])])
    (hal : st.aliases = [(lowerStr a, cid)])
    (hmod : st.modules = [(cid, c)])
    (hcid : c.id = cid)
    (hov : c.pfxOverride = some ov)
    (hg : lowerStr g = g) (ho : lowerStr o = o)
    (ha1 : a ≠ []) (ha2 : ∀ x ∈ a, isWsChar x = false)
    (hm1 : m1.content = o ++ a ++ rest1)
    (hrest1 : rest1 = [] ∨ ∃ ch t, rest1 = ch :: t ∧ isWsChar ch = true)
    (hglobalm1 : jsStartsWith (lowerStr m1.content) g = true)
    (hm2 : m2.content = g ++ a ++ rest2)
    (hrest2 : rest2 = [] ∨ ∃ ch t, rest2 = ch :: t ∧ isWsChar ch = true)
    (hnoov : jsStartsWith (lowerStr m2.content) o = false) :
    (∃ p, parseCommand st m1 = some p ∧ p.command.map Cmd.id = some cid
      ∧ p.pfx = o ∧ p.aliasName = a)
    ∧ (∃ q, parseCommand st m2 = some q ∧ q.command = none
      ∧ q.pfx = g ∧ q.aliasName = a) := by
  have hfall : ∀ (m : Msg) (c' : Cmd), (extractParts st g m).command = some c' →
      c'.pfxOverride.isSome = true := by
    intro m c' hc'
    rw [extractParts_command, findCommand_singleton st _ cid c hal hmod] at hc'
    by_cases h : lowerStr a = lowerStr (extractParts st g m).name
    · rw [if_pos h] at hc'
      cases hc'
      simp [hov]
    · rw [if_neg h] at hc'
      cases hc'
  constructor
  · have hres := parseOverwritten_resolves st o a rest1 [cid] cid c m1 hpfx hal hmod
      hcid (by simp [sHas]) ho hm1 ha1 ha2 hrest1
    rw [parseCommand_one_match st g m1 hglobal hmention hg hglobalm1 (hfall m1), hres]
    refine ⟨_, rfl, ?_, rfl, rfl⟩
    simp [hcid]
  · have hnone := parseOverwritten_no_match st o [cid] m2 hpfx ho hnoov
    have hname := extractParts_name st g a rest2 m2 hg hm2 ha1 ha2 hrest2
    rw [parseCommand_one_match st g m2 hglobal hmention hg
      (by rw [hm2, List.append_assoc, lowerStr_append, hg]; exact jsStartsWith_append g _)
      (hfall m2), hnone]
    exact ⟨_, rfl, rfl, rfl, hname⟩

/-- The admin command of the spec's worked example. -/
def c1Cmd : Cmd :=
  { id := "admin".toList
    aliases := ["ban".toList]
    pfxOverride := some ["!!admin ".toList] }

/-- A handler with global prefix `!` and the admin command registered with
override prefix `!!admin `. -/
def c1St : CH :=
  { modules := [("admin".toList, c1Cmd)]
    aliases := [("ban".toList, "admin".toList)]
    prefixes := [("!!admin ".toList, ["admin".toList])]
    globalPfx := .one "!".toList }

/-- C1 witness: the spec's worked example, `"!!admin ban 5"` versus
`"!ban 5"`. -/
theorem cl1_prefix_override_specificity_witness :
    (∃ p, parseCommand c1St { authorId := "u".toList, content := "!!admin ban 5".toList }
        = some p ∧ p.command.map Cmd.id = some ("admin".toList)
        ∧ p.pfx = "!!admin ".toList ∧ p.aliasName = "ban".toList)
    ∧ (∃ q, parseCommand c1St { authorId := "u".toList, content := "!ban 5".toList }
        = some q ∧ q.command = none
        ∧ q.pfx = "!".toList ∧ q.aliasName = "ban".toList) :=
  cl1_prefix_override_specificity c1St "!".toList "!!admin ".toList "ban".toList
    " 5".toList " 5".toList ["!!admin ".toList] "admin".toList c1Cmd
    { authorId := "u".toList, content := "!!admin ban 5".toList }
    { authorId := "u".toList, content := "!ban 5".toList }
    rfl rfl rfl (by decide) rfl rfl rfl (by decide) (by decide) (by decide) (by decide)
    (by decide) (Or.inr ⟨' ', "5".toList, by decide, by decide⟩) (by decide)
    (by decide) (Or.inr ⟨' ', "5".toList, by decide, by decide⟩) (by decide)

/-- A command whose second alias collides with an already-registered one. -/
def c2CmdA : Cmd := { id := "a".toList, aliases := ["x".toList] }

/-- See `c2CmdA`. -/
def c2CmdB : Cmd := { id := "b".toList, aliases := ["y".toList, "x".toList] }

/-- The handler state with `c2CmdA` registered. -/
def c2StA : CH := (register {} c2CmdA).st

/-- C2 counterexample: registering `c2CmdB` (aliases `y`, `x`) over a
registry owning alias `x` raises the alias-conflict fault, yet the registry
is not left as it was: the alias table has gained `y` and the modules map
has gained the command. -/
theorem cl2_register_conflict_counterexample :
    ((register c2StA c2CmdB).err).isSome = true
    ∧ ((register c2StA c2CmdB).st.aliases ≠ c2StA.aliases)
    ∧ aHas (register c2StA c2CmdB).st.modules ("b".toList) = true := by
  refine ⟨by decide, ?_, by decide⟩
  decide

/-- C2 amended: when processing the aliases of `c` hits a conflict,
`register` fails with that alias-conflict fault and leaves the prefix index
untouched, but the modules map has already gained the command and the alias
table keeps every insertion made before the conflict. -/
theorem cl2_register_conflict_partial_mutation (st : CH) (c : Cmd) (e : RegErr)
    (h : (registerAliasesLoop st.aliasReplacement c.id c.aliases st.aliases).1 = some e) :
    (register st c).err = some e
    ∧ (register st c).st.prefixes = st.prefixes
    ∧ (register st c).st.modules = aSet st.modules c.id c
    ∧ (register st c).st.aliases
        = (registerAliasesLoop st.aliasReplacement c.id c.aliases st.aliases).2 := by
  cases hp : registerAliasesLoop st.aliasReplacement c.id c.aliases st.aliases with
  | mk err tab =>
    rw [hp] at h
    simp only at h
    subst h
    simp [register, hp]

/-- C2 amended witness: the concrete conflict of the counterexample, with
the fault naming alias `x`, the new command `b`, and the holder `a`. -/
theorem cl2_register_conflict_partial_mutation_witness :
    (register c2StA c2CmdB).err
        = some (.aliasConflict ("x".toList) ("b".toList) ("a".toList))
    ∧ (register c2StA c2CmdB).st.prefixes = c2StA.prefixes
    ∧ (register c2StA c2CmdB).st.modules = aSet c2StA.modules ("b".toList) c2CmdB
    ∧ (register c2StA c2CmdB).st.aliases
        = (registerAliasesLoop c2StA.aliasReplacement c2CmdB.id c2CmdB.aliases
            c2StA.aliases).2 :=
  cl2_register_conflict_partial_mutation c2StA c2CmdB
    (.aliasConflict ("x".toList) ("b".toList) ("a".toList)) (by decide)

/-- C3: for an actor outside the cooldown-ignore set and a command with
`ratelimit = 2` and `cooldown = 1000`, three invocations inside one window
are allowed, allowed, then blocked with a single `cooldown` event whose
remaining time counts from the first use, the blocked use is not counted,
and a fourth invocation after the expiry timer fired is allowed again. -/
theorem cl3_cooldown_ratelimit (st : CH) (c : Cmd) (uid : Str)
    (m1 m2 m3 m4 : Msg)
    (hcool : c.cooldown = some 1000) (hrate : c.ratelimit = 2)
    (hign : ((c.ignoreCooldown.getD st.ignoreCooldown).contains uid) = false)
    (hinit : aGet st.cooldowns uid = none)
    (hu1 : m1.authorId = uid) (hu2 : m2.authorId = uid)
    (hu3 : m3.authorId = uid) (hu4 : m4.authorId = uid) :
    let r1 := runCooldowns st m1 c
    let r2 := runCooldowns r1.2.1 m2 c
    let r3 := runCooldowns r2.2.1 m3 c
    let r4 := runCooldowns (fireCooldownTimer r3.2.1 uid c.id) m4 c
    r1.1 = false ∧ r1.2.2 = []
    ∧ r2.1 = false ∧ r2.2.2 = []
    ∧ r3.1 = true
    ∧ r3.2.2 = [.cooldown c.id
        (((m1.createdTimestamp + 1000 : Nat) : Int) - (m3.createdTimestamp : Int))]
    ∧ aGet ((aGet r3.2.1.cooldowns uid).getD []) c.id
        = some (some { endTime := m1.createdTimestamp + 1000, uses := 2 })
    ∧ r4.1 = false ∧ r4.2.2 = [] := by
  have hign' : uid ∉ c.ignoreCooldown.getD st.ignoreCooldown := by simpa using hign
  dsimp only
  simp [runCooldowns, fireCooldownTimer, hcool, hrate, hign', hinit,
    hu1, hu2, hu3, hu4, aHas, aGet_aSet_self]

/-- A command with a two-use rate limit inside a 1000 ms window. -/
def c3Cmd : Cmd := { id := "c".toList, cooldown := some 1000, ratelimit := 2 }

/-- C3 witness: actor `u`, uses at 0 ms, 100 ms, 200 ms, then after the
timer, at 1500 ms. -/
theorem cl3_cooldown_ratelimit_witness :
    let r1 := runCooldowns {} { authorId := "u".toList, createdTimestamp := 0 } c3Cmd
    let r2 := runCooldowns r1.2.1 { authorId := "u".toList, createdTimestamp := 100 } c3Cmd
    let r3 := runCooldowns r2.2.1 { authorId := "u".toList, createdTimestamp := 200 } c3Cmd
    let r4 := runCooldowns (fireCooldownTimer r3.2.1 ("u".toList) c3Cmd.id)
      { authorId := "u".toList, createdTimestamp := 1500 } c3Cmd
    r1.1 = false ∧ r1.2.2 = []
    ∧ r2.1 = false ∧ r2.2.2 = []
    ∧ r3.1 = true
    ∧ r3.2.2 = [.cooldown c3Cmd.id (((0 + 1000 : Nat) : Int) - ((200 : Nat) : Int))]
    ∧ aGet ((aGet r3.2.1.cooldowns ("u".toList)).getD []) c3Cmd.id
        = some (some { endTime := 0 + 1000, uses := 2 })
    ∧ r4.1 = false ∧ r4.2.2 = [] :=
  cl3_cooldown_ratelimit {} c3Cmd ("u".toList) _ _ _ _ rfl rfl (by decide) rfl
    rfl rfl rfl rfl

/-- A command with a one-use rate limit, for the expiry-timer transition. -/
def c7Cmd : Cmd := { id := "c".toList, cooldown := some 1000, ratelimit := 1 }

/-- C7: after the actor's only entry is created by a first use and its
expiry timer fires, the cooldown map still holds a key for the actor — the
entry is nulled but `Object.keys` still sees it, so the cleanup branch that
would remove the actor never runs. -/
theorem cl7_timer_keeps_actor_key :
    (fireCooldownTimer
        (runCooldowns ({} : CH) { authorId := "u".toList } c7Cmd).2.1
        ("u".toList) ("c".toList)).cooldowns
      = [("u".toList, [("c".toList, none)])] := by decide

/-- C9: a flag argument evaluated over the plain-split tokens of the
post-alias content is true exactly when some token, trimmed, equals one of
the declared markers case-insensitively — at any position — and a non-null
default inverts the result. -/
theorem cl9_flag_marker_anywhere (content : Str) (markers : List Str) (d : Val) :
    (flagArgValue (splitPlain content) markers none = true
      ↔ ∃ w ∈ splitPlain content, ∃ p ∈ markers, lowerStr (trimStr w) = lowerStr p)
    ∧ flagArgValue (splitPlain content) markers (some d)
        = !flagFoundIn (splitPlain content) markers := by
  constructor
  · simp [flagArgValue, flagFoundIn, List.any_eq_true]
  · rfl

/-- A command sharing its override prefix with `c10CmdB`. -/
def c10CmdA : Cmd :=
  { id := "a".toList, aliases := ["aa".toList], pfxOverride := some ["$".toList] }

/-- See `c10CmdA`. -/
def c10CmdB : Cmd :=
  { id := "b".toList, aliases := ["bb".toList], pfxOverride := some ["$".toList] }

/-- Both commands registered; the prefix index maps `$` to both ids. -/
def c10St : CH := (register (register {} c10CmdA).st c10CmdB).st

/-- C10: deregistering `a` removes its alias entry, but because the override
prefix `$` is shared, the id set of `$` still contains `a` afterwards — the
source deletes the prefix string, not the command id, from the set. -/
theorem cl10_deregister_shared_prefix_keeps_id :
    aGet (deregister c10St c10CmdA).aliases ("aa".toList) = none
    ∧ aGet (deregister c10St c10CmdA).prefixes ("$".toList)
        = some ["a".toList, "b".toList] := by decide

/-! Section: Prompt-session lemmas -/

theorem aGet_eq_none_of_not_mem {α : Type} (l : List (Str × α)) (k : Str)
    (h : k ∉ l.map Prod.fst) : aGet l k = none := by
  induction l with
  | nil => rfl
  | cons hd t ih =>
    obtain ⟨k', v'⟩ := hd
    simp only [List.map_cons, List.mem_cons, not_or] at h
    rw [aGet_cons, if_neg (fun hh => h.1 hh.symm), ih h.2]

theorem mem_keys_aSet {α : Type} (l : List (Str × α)) (k x : Str) (v : α) :
    x ∈ (aSet l k v).map Prod.fst ↔ x ∈ l.map Prod.fst ∨ x = k := by
  induction l with
  | nil =>
    rw [aSet_nil]
    simp only [List.map_cons, List.map_nil, List.mem_cons, List.not_mem_nil]
    tauto
  | cons hd t ih =>
    obtain ⟨k', v'⟩ := hd
    by_cases hk : k' = k
    · subst hk
      rw [aSet_cons, if_pos rfl]
      simp only [List.map_cons, List.mem_cons]
      tauto
    · rw [aSet_cons, if_neg hk]
      simp only [List.map_cons, List.mem_cons, ih]
      tauto

theorem aSet_keys_nodup {α : Type} (l : List (Str × α)) (k : Str) (v : α)
    (h : (l.map Prod.fst).Nodup) : ((aSet l k v).map Prod.fst).Nodup := by
  induction l with
  | nil =>
    rw [aSet_nil]
    simp
  | cons hd t ih =>
    obtain ⟨k', v'⟩ := hd
    simp only [List.map_cons, List.nodup_cons] at h
    by_cases hk : k' = k
    · subst hk
      rw [aSet_cons, if_pos rfl]
      simp only [List.map_cons, List.nodup_cons]
      exact h
    · rw [aSet_cons, if_neg hk]
      simp only [List.map_cons, List.nodup_cons]
      refine ⟨?_, ih h.2⟩
      intro hx
      rcases (mem_keys_aSet t k k' v).mp hx with hmem | hkk
      · exact h.1 hmem
      · exact hk hkk

theorem aGet_aDel_ne {α : Type} (l : List (Str × α)) (k k' : Str) (h : k ≠ k') :
    aGet (aDel l k) k' = aGet l k' := by
  induction l with
  | nil => rfl
  | cons hd t ih =>
    obtain ⟨k'', v''⟩ := hd
    by_cases hk : k'' = k
    · subst hk
      rw [aDel_cons, if_pos rfl, aGet_cons, if_neg h]
    · rw [aDel_cons, if_neg hk, aGet_cons, aGet_cons, ih]

theorem aGet_aDel_self_of_nodup {α : Type} (l : List (Str × α)) (k : Str)
    (h : (l.map Prod.fst).Nodup) : aGet (aDel l k) k = none := by
  induction l with
  | nil => rfl
  | cons hd t ih =>
    obtain ⟨k', v'⟩ := hd
    simp only [List.map_cons, List.nodup_cons] at h
    by_cases hk : k' = k
    · subst hk
      rw [aDel_cons, if_pos rfl]
      exact aGet_eq_none_of_not_mem t k' (fun hm => h.1 hm)
    · rw [aDel_cons, if_neg hk, aGet_cons, if_neg hk, ih h.2]

/-- After `removePrompt`, the (channel, actor) pair is gone: `hasPrompt` is
false (the outer-key deletion slip never resurrects the pair when the key
sets are duplicate-free, as `Map` keys are). -/
theorem hasPrompt_removePrompt (st : CH) (ch u : Str)
    (hnd : (st.prompts.map Prod.fst).Nodup) :
    hasPrompt (removePrompt st ch u) ch u = false := by
  unfold removePrompt hasPrompt
  cases hg : aGet st.prompts ch with
  | none => simp [hg]
  | some users =>
    simp only [hg]
    by_cases he : (sDel users u).isEmpty = true
    · rw [if_pos he]
      by_cases hcu : ch = u
      · subst hcu
        rw [aGet_aDel_self_of_nodup _ ch (aSet_keys_nodup _ ch _ hnd)]
      · rw [aGet_aDel_ne _ u ch (fun hh => hcu hh.symm), aGet_aSet_self]
        exact sDel_not_contains users u
    · rw [if_neg he, aGet_aSet_self]
      exact sDel_not_contains users u

@[simp] theorem removePrompt_inhibitAll (st : CH) (ch u : Str) :
    (removePrompt st ch u).inhibitAll = st.inhibitAll := by
  unfold removePrompt
  cases aGet st.prompts ch <;> simp

@[simp] theorem removePrompt_blockClient (st : CH) (ch u : Str) :
    (removePrompt st ch u).blockClient = st.blockClient := by
  unfold removePrompt
  cases aGet st.prompts ch <;> simp

@[simp] theorem removePrompt_blockBots (st : CH) (ch u : Str) :
    (removePrompt st ch u).blockBots = st.blockBots := by
  unfold removePrompt
  cases aGet st.prompts ch <;> simp

@[simp] theorem removePrompt_clientUserId (st : CH) (ch u : Str) :
    (removePrompt st ch u).clientUserId = st.clientUserId := by
  unfold removePrompt
  cases aGet st.prompts ch <;> simp

@[simp] theorem addPrompt_inhibitAll (st : CH) (ch u : Str) :
    (addPrompt st ch u).inhibitAll = st.inhibitAll := rfl

@[simp] theorem addPrompt_blockClient (st : CH) (ch u : Str) :
    (addPrompt st ch u).blockClient = st.blockClient := rfl

@[simp] theorem addPrompt_blockBots (st : CH) (ch u : Str) :
    (addPrompt st ch u).blockBots = st.blockBots := rfl

@[simp] theorem addPrompt_clientUserId (st : CH) (ch u : Str) :
    (addPrompt st ch u).clientUserId = st.clientUserId := rfl

theorem collect_st (st : CH) (ctx : PromptCtx) (ch u : Str)
    (script : List Str) (cin : Str) :
    (collect st ctx ch u script cin).st = removePrompt (addPrompt st ch u) ch u := rfl

/-- The `all`-type gate passes when no inhibitor blocks, the author is
neither the client nor a bot, and no prompt session is pending. -/
theorem runAll_not_blocked (st : CH) (m : Msg)
    (h1 : st.inhibitAll m = none) (h2 : m.authorId ≠ st.clientUserId)
    (h3 : m.authorBot = false)
    (h4 : hasPrompt st m.channelId m.authorId = false) :
    runAllTypeInhibitors st m = (false, []) := by
  simp [runAllTypeInhibitors, h1, h2, h3, h4]

/-! Section: Claim theorems for the prompt state machine -/

/-- C4: with effective `retries = 1` and a prompt entered with no
command-supplied phrase, two consecutive uncastable replies send exactly
the start prompt, one retry prompt, and the ended message; the prompt
resolves to cancellation without awaiting further input, and the command
invocation is cancelled. -/
theorem cl4_two_failures_end_prompt (st : CH) (ctx : PromptCtx) (ch u : Str)
    (i1 i2 : Str) (extra : List Str) (c : Cmd) (m : Msg)
    (hret : ctx.opts.retries = 1)
    (hinf : ctx.opts.infinite = false)
    (hbk1 : (ctx.opts.breakout && ctx.resolvesAsCommand i1) = false)
    (hbk2 : (ctx.opts.breakout && ctx.resolvesAsCommand i2) = false)
    (hcw1 : ¬ lowerStr i1 = lowerStr ctx.opts.cancelWord)
    (hcw2 : ¬ lowerStr i2 = lowerStr ctx.opts.cancelWord)
    (hcast1 : ctx.castFn i1 = none)
    (hcast2 : ctx.castFn i2 = none)
    (hstart : ctx.opts.startText = true)
    (hretry : ctx.opts.retryText = true)
    (hended : ctx.opts.endedText = true) :
    let r := collect st ctx ch u (i1 :: i2 :: extra) []
    r.evs = [.pstart, .pretry, .pended]
    ∧ r.out = .cancelled
    ∧ r.leftover = extra
    ∧ handleDirectAfterParse r.st m c (liftPromptOut r.out)
        = ([.commandCancelled c.id], some false) := by
  have hout : promptOne ctx false (i1 :: i2 :: extra) [] 1
      = ([PEv.pstart, PEv.pretry, PEv.pended], .cancelled, extra) := by
    rw [promptOne, promptOne]
    simp [promptSendEvs, hret, hbk1, hbk2, hcw1, hcw2, hcast1, hcast2,
      hstart, hretry, hended]
  have hcoll : collect st ctx ch u (i1 :: i2 :: extra) []
      = { st := removePrompt (addPrompt st ch u) ch u,
          evs := [PEv.pstart, PEv.pretry, PEv.pended],
          out := .cancelled, leftover := extra } := by
    rw [collect]
    simp [hinf, hout]
  dsimp only
  rw [hcoll]
  exact ⟨rfl, rfl, rfl, rfl⟩

/-- The prompt context of the C4 witness: everything fails to cast. -/
def c4Ctx : PromptCtx :=
  { opts := { retries := 1, startText := true, retryText := true,
              endedText := true, timeoutText := true, cancelText := true }
    castFn := fun _ => none }

/-- The command whose invocation the C4/C5 witnesses cancel. -/
def c45Cmd : Cmd := { id := "k".toList }

/-- C4 witness: inputs `one` then `two`, both uncastable. -/
theorem cl4_two_failures_end_prompt_witness :
    let r := collect {} c4Ctx ("ch".toList) ("u".toList)
      ["one".toList, "two".toList] []
    r.evs = [.pstart, .pretry, .pended]
    ∧ r.out = .cancelled
    ∧ r.leftover = []
    ∧ handleDirectAfterParse r.st { authorId := "u".toList } c45Cmd (liftPromptOut r.out)
        = ([.commandCancelled c45Cmd.id], some false) :=
  cl4_two_failures_end_prompt {} c4Ctx ("ch".toList) ("u".toList)
    ("one".toList) ("two".toList) [] c45Cmd { authorId := "u".toList }
    rfl rfl rfl rfl (by decide) (by decide) rfl rfl rfl rfl rfl

/-- C5: a reply that case-insensitively equals the cancel word resolves the
prompt to cancellation, the command invocation is cancelled instead of
executed, the prompt session for the (channel, actor) pair is removed so
`hasPrompt` is false, and a subsequent message from that actor in that
channel passes the `all`-type gate. -/
theorem cl5_cancel_word_clears_session (st : CH) (ctx : PromptCtx) (ch u : Str)
    (inp : Str) (rest : List Str) (cin : Str) (c : Cmd) (m mNext : Msg)
    (hnd : (st.prompts.map Prod.fst).Nodup)
    (hbk : (ctx.opts.breakout && ctx.resolvesAsCommand inp) = false)
    (hcw : lowerStr inp = lowerStr ctx.opts.cancelWord)
    (hch : mNext.channelId = ch) (hau : mNext.authorId = u)
    (hinh : st.inhibitAll mNext = none)
    (hncl : mNext.authorId ≠ st.clientUserId)
    (hnbot : mNext.authorBot = false) :
    let r := collect st ctx ch u (inp :: rest) cin
    r.out = .cancelled
    ∧ hasPrompt r.st ch u = false
    ∧ handleDirectAfterParse r.st m c (liftPromptOut r.out)
        = ([.commandCancelled c.id], some false)
    ∧ runAllTypeInhibitors r.st mNext = (false, []) := by
  dsimp only
  have hout : (promptOne ctx (ctx.opts.infinite &&
        (if ctx.matchIsSeparate then cin.isEmpty else true))
      (inp :: rest) [] (1 + if cin.isEmpty then 0 else 1)).2.1 = .cancelled := by
    rw [promptOne]
    simp [hbk, hcw]
  have hro : (collect st ctx ch u (inp :: rest) cin).out = .cancelled := by
    rw [collect]
    exact hout
  have hstates : (collect st ctx ch u (inp :: rest) cin).st
      = removePrompt (addPrompt st ch u) ch u := rfl
  refine ⟨hro, ?_, ?_, ?_⟩
  · rw [hstates]
    exact hasPrompt_removePrompt (addPrompt st ch u) ch u
      (aSet_keys_nodup st.prompts ch _ hnd)
  · rw [hro]
    rfl
  · apply runAll_not_blocked
    · rw [hstates, removePrompt_inhibitAll, addPrompt_inhibitAll]
      exact hinh
    · rw [hstates, removePrompt_clientUserId, addPrompt_clientUserId]
      exact hncl
    · exact hnbot
    · rw [hstates, hch, hau]
      exact hasPrompt_removePrompt (addPrompt st ch u) ch u
        (aSet_keys_nodup st.prompts ch _ hnd)

/-- C5 witness: cancel word `CANCEL` (case-insensitive) against the default
`cancel`. -/
theorem cl5_cancel_word_clears_session_witness :
    let r := collect {} c4Ctx ("ch".toList) ("u".toList) ["CANCEL".toList] []
    r.out = .cancelled
    ∧ hasPrompt r.st ("ch".toList) ("u".toList) = false
    ∧ handleDirectAfterParse r.st { authorId := "u".toList } c45Cmd (liftPromptOut r.out)
        = ([.commandCancelled c45Cmd.id], some false)
    ∧ runAllTypeInhibitors r.st
        { authorId := "u".toList, channelId := "ch".toList } = (false, []) :=
  cl5_cancel_word_clears_session {} c4Ctx ("ch".toList) ("u".toList)
    ("CANCEL".toList) [] [] c45Cmd { authorId := "u".toList }
    { authorId := "u".toList, channelId := "ch".toList }
    (by decide) rfl (by decide) rfl rfl rfl (by decide) rfl

/-- C6 counterexample: infinite prompt, `retries = 1`, no values yet.  After
the stop word the very next uncastable reply already reaches the `ended`
terminal state, while without the stop word the same single uncastable
reply does not — the stop-word re-prompt does consume a retry, so the
remaining failure budget is not the same as if the stop word had never been
sent. -/
def c6Ctx : PromptCtx :=
  { opts := { retries := 1, infinite := true, startText := true,
              retryText := true, endedText := true, timeoutText := true }
    castFn := fun _ => none }

/-- See `c6Ctx`. -/
theorem cl6_stop_word_counterexample :
    ((promptOne c6Ctx true ["stop".toList, "x".toList] [] 1).1.contains .pended = true)
    ∧ ((promptOne c6Ctx true ["x".toList] [] 1).1.contains .pended = false) := by
  constructor <;> decide

/-- C6 amended: in infinite mode with no values collected, a reply equal to
the stop word re-prompts with the retry count incremented — the re-prompt
consumes a retry rather than preserving the failure budget. -/
theorem cl6_stop_word_increments_retry (ctx : PromptCtx) (inp : Str)
    (rest : List Str) (rc : Nat)
    (hbk : (ctx.opts.breakout && ctx.resolvesAsCommand inp) = false)
    (hcw : ¬ lowerStr inp = lowerStr ctx.opts.cancelWord)
    (hsw : lowerStr inp = lowerStr ctx.opts.stopWord) :
    promptOne ctx true (inp :: rest) [] rc
      = (promptSendEvs ctx true [] rc ++ (promptOne ctx true rest [] (rc + 1)).1,
         (promptOne ctx true rest [] (rc + 1)).2.1,
         (promptOne ctx true rest [] (rc + 1)).2.2) := by
  rw [promptOne]
  simp [hbk, hcw, hsw]
  intro h
  exact absurd (hsw.trans h) hcw

/-- C6 amended witness: the concrete stop-word step of the counterexample
context. -/
theorem cl6_stop_word_increments_retry_witness :
    promptOne c6Ctx true ["stop".toList, "x".toList] [] 1
      = (promptSendEvs c6Ctx true [] 1 ++ (promptOne c6Ctx true ["x".toList] [] 2).1,
         (promptOne c6Ctx true ["x".toList] [] 2).2.1,
         (promptOne c6Ctx true ["x".toList] [] 2).2.2) :=
  cl6_stop_word_increments_retry c6Ctx ("stop".toList) ["x".toList] 1
    rfl (by decide) (by decide)

/-! Section: Claim theorem for conditional fan-out isolation -/

theorem runCooldowns_no_cooldown (st : CH) (m : Msg) (c : Cmd)
    (hc : c.cooldown = none) (hd : st.defaultCooldown = 0) :
    runCooldowns st m c = (false, st, []) := by
  rw [runCooldowns]
  simp [hc, hd]

/-- C8: when two condition-triggered commands both match a message and pass
the post gates, a fault thrown by the first command's handler is routed to
the error event for that command only; the second command still starts,
executes, and fires its `commandFinished` event. -/
theorem cl8_conditional_fault_isolated (st : CH) (m : Msg) (c1 c2 : Cmd)
    (id1 id2 : Str) (f : Fault) (v : Val)
    (hmods : st.modules = [(id1, c1), (id2, c2)])
    (hid1 : c1.id = id1) (hid2 : c2.id = id2)
    (hcond1 : c1.condition m = true) (hcond2 : c2.condition m = true)
    (hed : m.edited = false)
    (howner1 : c1.ownerOnly = false) (howner2 : c2.ownerOnly = false)
    (hchan1 : c1.channel = none) (hchan2 : c2.channel = none)
    (hperm1c : c1.clientPermissions = none) (hperm2c : c2.clientPermissions = none)
    (hperm1u : c1.userPermissions = none) (hperm2u : c2.userPermissions = none)
    (hpost1 : st.inhibitPost m id1 = none) (hpost2 : st.inhibitPost m id2 = none)
    (hcd1 : c1.cooldown = none) (hcd2 : c2.cooldown = none)
    (hdc : st.defaultCooldown = 0)
    (hbefore1 : c1.before m = .ok ()) (hbefore2 : c2.before m = .ok ())
    (hexec1 : c1.exec m = .error f) (hexec2 : c2.exec m = .ok v)
    (hlist : st.hasErrorListener = true) :
    handleConditionalCommands st m
      = (true, st, [.commandStarted id1, .errorEv (some id1),
                    .commandStarted id2, .commandFinished id2 v]) := by
  simp [handleConditionalCommands, hmods, hcond1, hcond2, hed, runOneConditional,
    runPostTypeInhibitors, howner1, howner2, hchan1, hchan2, runPermissionChecks,
    runPermissionChecks.runUserPermissionCheck, hperm1c, hperm2c, hperm1u, hperm2u,
    hpost1, hpost2, runCooldowns_no_cooldown st m c1 hcd1 hdc,
    runCooldowns_no_cooldown st m c2 hcd2 hdc, hbefore1, hbefore2,
    runCommandModel, hexec1, hexec2, emitErrorEvs, hlist, hid1, hid2]

/-- The faulting and the well-behaved conditional commands of the C8
witness. -/
def c8Cmd1 : Cmd :=
  { id := "one".toList, condition := fun _ => true, exec := fun _ => .error 7 }

/-- See `c8Cmd1`. -/
def c8Cmd2 : Cmd :=
  { id := "two".toList, condition := fun _ => true, exec := fun _ => .ok 42 }

/-- A handler with both conditional commands registered. -/
def c8St : CH := { modules := [("one".toList, c8Cmd1), ("two".toList, c8Cmd2)] }

/-- C8 witness: `one` throws fault 7, `two` returns 42. -/
theorem cl8_conditional_fault_isolated_witness :
    handleConditionalCommands c8St { authorId := "u".toList }
      = (true, c8St, [.commandStarted ("one".toList), .errorEv (some ("one".toList)),
                      .commandStarted ("two".toList),
                      .commandFinished ("two".toList) 42]) :=
  cl8_conditional_fault_isolated c8St { authorId := "u".toList } c8Cmd1 c8Cmd2
    ("one".toList) ("two".toList) 7 42
    rfl rfl rfl rfl rfl rfl rfl rfl rfl rfl rfl rfl rfl rfl rfl rfl rfl rfl rfl
    rfl rfl rfl rfl rfl

end Akairo
